import Mathlib

/-!
Verification of the Ghost Key keystroke/voice biometric extension.

Shallow embedding of the biometric core of the repository:
* `libs/autoencoder.js` — autoencoder model, normalization, training threshold,
  verification (`authenticateWithModel`);
* the keystroke analyzer (`KeystrokeAnalyzer.extractFeatures` / `validateFeatures`);
* the voice similarity scorer (`calculateSimilarityScore`);
* `libs/storage.js` — HMAC-checked IndexedDB records (`getKeystrokeModel`,
  `storeTrainingSample`, `getTrainingSamples`);
* `background.js` — the `handleAuthCheck` message handler.

JavaScript numbers are modelled as exact rationals (`ℚ`), except where the source
takes square roots (voice cosine similarity, keystroke hold-time spread), which are
modelled over `ℝ` with `Real.sqrt`.  JavaScript `NaN`/`Infinity` values are modelled
explicitly (`JsNum`) only where the source tests for them (`validateFeatures`).
-/

namespace GhostKey

/-! ## Configuration constants (AUTH_CONFIG in libs/autoencoder.js / keystroke analyzer) -/

/-- AUTH_CONFIG.SAMPLES_REQUIRED (libs/autoencoder.js line 10). -/
def SAMPLES_REQUIRED : ℕ := 5

/-- AUTH_CONFIG.AUTOENCODER_THRESHOLD = 0.03 (libs/autoencoder.js line 13), the
reconstruction-error threshold floor. -/
def AUTOENCODER_THRESHOLD : ℚ := 3 / 100

/-- AUTH_CONFIG.PASSWORD_LENGTH = 11 in the keystroke analyzer file (the `L` of the
spec).  The extractor is parametrized over this constant below. -/
def PASSWORD_LENGTH : ℕ := 11

/-! ## SimpleAutoencoder (libs/autoencoder.js lines 20–197)

Weight matrices are lists of rows; `weights1` has `inputSize` rows of `hiddenSize`
entries, and so on.  Out-of-range accesses are modelled with default `0` (the source
never performs them on well-formed models). -/

structure SimpleAutoencoder where
  inputSize : ℕ
  hiddenSize : ℕ
  bottleneckSize : ℕ
  weights1 : List (List ℚ)
  weights2 : List (List ℚ)
  weights3 : List (List ℚ)
  biases1 : List ℚ
  biases2 : List ℚ
  biases3 : List ℚ
deriving DecidableEq

/-- `relu(x) = Math.max(0, x)` (libs/autoencoder.js line 48). -/
def relu (x : ℚ) : ℚ := max 0 x

/-- One output unit of a dense layer: `sum = bias; for i < n: sum += input[i] * weights[i][j]`
(the inner loops of `forward`, libs/autoencoder.js lines 55–80). -/
def layerSum (input : List ℚ) (weights : List (List ℚ)) (n : ℕ) (j : ℕ) (bias : ℚ) : ℚ :=
  bias + ((List.range n).map fun i => input.getD i 0 * (weights.getD i []).getD j 0).sum

/-- `SimpleAutoencoder.forward` (libs/autoencoder.js lines 52–84):
input → hidden (ReLU) → bottleneck (ReLU) → output (linear). -/
def forward (m : SimpleAutoencoder) (input : List ℚ) : List ℚ :=
  let hidden := (List.range m.hiddenSize).map fun j =>
    relu (layerSum input m.weights1 m.inputSize j (m.biases1.getD j 0))
  let bottleneck := (List.range m.bottleneckSize).map fun j =>
    relu (layerSum hidden m.weights2 m.hiddenSize j (m.biases2.getD j 0))
  (List.range m.inputSize).map fun j =>
    layerSum bottleneck m.weights3 m.bottleneckSize j (m.biases3.getD j 0)

/-- The mean-squared-error loop used both by `trainKeystrokeModel` (lines 283–292) and
`authenticateWithModel` (lines 352–357): sum of squared differences over the indices of
the first list, divided by its length. -/
def mseLoop (xs ys : List ℚ) : ℚ :=
  ((List.range xs.length).map fun i =>
    (xs.getD i 0 - ys.getD i 0) * (xs.getD i 0 - ys.getD i 0)).sum / (xs.length : ℚ)

/-! ## Feature normalization (libs/autoencoder.js lines 203–229)

The source initializes the per-feature minima to `Infinity` and maxima to `-Infinity`;
these sentinel values are modelled as `none`, and `if (sample[i] < min[i])` on an
out-of-range `sample[i]` (`undefined` in JS, whose comparison is always false) as a
skipped update. -/

/-- One `if (sample[i] < min[i]) min[i] = sample[i]` update over the whole corpus for
feature `i` (`none` is the initial `Infinity`). -/
def colMinOpt (features : List (List ℚ)) (i : ℕ) : Option ℚ :=
  features.foldl (fun m s =>
    match s.get? i with
    | none => m
    | some v =>
      match m with
      | none => some v
      | some m' => some (if v < m' then v else m')) none

/-- The corresponding `if (sample[i] > max[i]) max[i] = sample[i]` update
(`none` is the initial `-Infinity`). -/
def colMaxOpt (features : List (List ℚ)) (i : ℕ) : Option ℚ :=
  features.foldl (fun m s =>
    match s.get? i with
    | none => m
    | some v =>
      match m with
      | none => some v
      | some m' => some (if m' < v then v else m')) none

/-- `featureCount = features[0].length` (libs/autoencoder.js line 208). -/
def featureCount (features : List (List ℚ)) : ℕ := (features.headD []).length

structure NormalizeResult where
  normalized : List (List ℚ)
  min : List (Option ℚ)
  max : List (Option ℚ)
deriving DecidableEq

/-- `normalizeFeatures` (libs/autoencoder.js lines 203–229).  Throwing on an empty
corpus is modelled as `none`.  The `| _, _ => 0` arm is unreachable for corpora of
equal-length samples (in JS it would produce `NaN` from `Infinity - Infinity`). -/
def normalizeFeatures (features : List (List ℚ)) : Option NormalizeResult :=
  if features.length = 0 then none
  else
    let n := featureCount features
    let minArr := (List.range n).map fun i => colMinOpt features i
    let maxArr := (List.range n).map fun i => colMaxOpt features i
    let normalized := features.map fun sample =>
      sample.enum.map fun iv =>
        match minArr.getD iv.1 none, maxArr.getD iv.1 none with
        | some mn, some mx => if mx - mn = 0 then 0 else (iv.2 - mn) / (mx - mn)
        | _, _ => 0
    some ⟨normalized, minArr, maxArr⟩

/-! ## Threshold selection in trainKeystrokeModel (libs/autoencoder.js lines 282–300)

`trainKeystrokeModel` augments the corpus and trains with `Math.random()`; the
deterministic tail — per-original-sample reconstruction errors, ascending sort,
95th-percentile pick and the floor — is embedded here, parametrized by the trained
autoencoder and the normalized original samples. -/

/-- Reconstruction errors of the original samples (libs/autoencoder.js lines 282–292). -/
def reconstructionErrors (ae : SimpleAutoencoder) (samples : List (List ℚ)) : List ℚ :=
  samples.map fun s => mseLoop s (forward ae s)

/-- The ascending sort plus `Math.floor(sortedErrors.length * 0.95)` index
(libs/autoencoder.js lines 295–296). -/
def percentile95 (errors : List ℚ) : ℚ :=
  let sorted := errors.insertionSort (· ≤ ·)
  sorted.getD (sorted.length * 95 / 100) 0

/-- `threshold = Math.max(sortedErrors[percentileIndex] || AUTOENCODER_THRESHOLD,
AUTOENCODER_THRESHOLD)` (libs/autoencoder.js lines 297–300).  `x || d` in JS yields `d`
when `x` is `undefined` (index out of range) or `0`. -/
def selectThreshold (errors : List ℚ) : ℚ :=
  let sorted := errors.insertionSort (· ≤ ·)
  let idx := sorted.length * 95 / 100
  let v := match sorted.get? idx with
    | none => AUTOENCODER_THRESHOLD
    | some v => if v = 0 then AUTOENCODER_THRESHOLD else v
  max v AUTOENCODER_THRESHOLD

/-- The threshold computed by `trainKeystrokeModel` from the trained autoencoder and
the min/max-normalized original (non-augmented) samples. -/
def trainKeystrokeModelThreshold (ae : SimpleAutoencoder) (originalNormalized : List (List ℚ)) : ℚ :=
  selectThreshold (reconstructionErrors ae originalNormalized)

/-! ## authenticateWithModel (libs/autoencoder.js lines 328–386) -/

structure NormalizationParams where
  min : List ℚ
  max : List ℚ
deriving DecidableEq

/-- The fields of `trainingStats` that `authenticateWithModel` reads. -/
structure TrainingStats where
  sampleCount : ℕ
  meanError : ℚ
  maxError : ℚ
deriving DecidableEq

structure KeystrokeModelData where
  modelType : String
  autoencoder : Option SimpleAutoencoder
  normalizationParams : NormalizationParams
  threshold : ℚ
  trainingStats : Option TrainingStats
deriving DecidableEq

/-- The input-normalization map of `authenticateWithModel` (libs/autoencoder.js lines
336–343): `features.map((value, i) => ...)`, with indices at or beyond the stored
min/max length sent to `0`.  Its result has the length of `features`, not the length
of the stored parameters. -/
def normalizeWithParams (pMin pMax : List ℚ) (features : List ℚ) : List ℚ :=
  features.enum.map fun iv =>
    if pMin.length ≤ iv.1 ∨ pMax.length ≤ iv.1 then 0
    else
      let range := pMax.getD iv.1 0 - pMin.getD iv.1 0
      if range = 0 then 0 else (iv.2 - pMin.getD iv.1 0) / range

structure AuthResult where
  success : Bool
  authenticated : Bool
  reconstructionError : ℚ
  threshold : ℚ
  confidence : ℚ
  deviations : List ℚ
deriving DecidableEq

/-- `authenticateWithModel` (libs/autoencoder.js lines 328–386).  The throw on
`modelData.modelType !== "autoencoder" || !modelData.autoencoder` is modelled as
`none`. -/
def authenticateWithModel (features : List ℚ) (modelData : KeystrokeModelData) :
    Option AuthResult :=
  match modelData.autoencoder with
  | none => none
  | some ae =>
    if modelData.modelType = "autoencoder" then
      let normalizedFeatures := normalizeWithParams modelData.normalizationParams.min
        modelData.normalizationParams.max features
      let reconstructed := forward ae normalizedFeatures
      let reconstructionError := mseLoop normalizedFeatures reconstructed
      let success := decide (reconstructionError ≤ modelData.threshold)
      let maxError := match modelData.trainingStats with
        | some st => if st.maxError = 0 then modelData.threshold * 2 else st.maxError
        | none => modelData.threshold * 2
      let confidence := max 0 (min 1 (1 - reconstructionError / (maxError * 2)))
      let deviations := (normalizedFeatures.take 10).map fun v => min |v| 1
      some ⟨success, success, reconstructionError, modelData.threshold, confidence, deviations⟩
    else none

/-! ## Keystroke feature extraction (KeystrokeAnalyzer, keystroke analyzer file lines
637–814)

Timestamps are modelled as rationals.  The feature vector is a list of reals because
`pressPressure` is a square root.  The extractor is parametrized by the configuration
constant `AUTH_CONFIG.PASSWORD_LENGTH` (the `L` of the spec; 11 in the source). -/

inductive KeyEventType where
  | keydown
  | keyup
deriving DecidableEq

/-- `KeystrokeEvent` (keystroke analyzer file lines 637–643). -/
structure KeystrokeEvent where
  key : String
  type : KeyEventType
  timestamp : ℚ
deriving DecidableEq

/-- `ExtractedFeatures` (keystroke analyzer file lines 648–659). -/
structure ExtractedFeatures where
  holdTimes : List ℚ
  ddTimes : List ℚ
  udTimes : List ℚ
  typingSpeed : ℚ
  flightTime : ℚ
  errorRate : ℚ
  pressPressure : ℝ
  features : List ℝ

/-- `KeystrokeAnalyzer.extractFeatures` (keystroke analyzer file lines 716–814),
parametrized by `L = AUTH_CONFIG.PASSWORD_LENGTH`. -/
noncomputable def extractFeatures (L : ℕ) (keystrokeData : List KeystrokeEvent) :
    ExtractedFeatures :=
  if keystrokeData.length = 0 then ⟨[], [], [], 0, 0, 0, 0, []⟩
  else
    let keydowns := keystrokeData.filter fun k => k.type = KeyEventType.keydown
    let keyups := keystrokeData.filter fun k => k.type = KeyEventType.keyup
    let matchedKeys := keydowns.map fun k => (k.key, k.timestamp)
    let holdTimes := matchedKeys.filterMap fun kd =>
      match keyups.find? fun u => u.key == kd.1 && decide (kd.2 < u.timestamp) with
      | some up => some (up.timestamp - kd.2)
      | none => none
    let ddTimes := (matchedKeys.zip matchedKeys.tail).map fun p => p.2.2 - p.1.2
    let udTimes := (matchedKeys.zip matchedKeys.tail).map fun p =>
      match keyups.find? fun u => u.key == p.1.1 && decide (p.1.2 < u.timestamp) with
      | some up => p.2.2 - up.timestamp
      | none => p.2.2 - p.1.2
    -- totalTime = Math.max(sums) || 0.001 (JS `||` replaces a zero maximum)
    let tmax := max holdTimes.sum (max ddTimes.sum udTimes.sum)
    let totalTime := if tmax = 0 then 1 / 1000 else tmax
    let typingSpeed := (matchedKeys.length : ℚ) / (totalTime / 1000)
    let flightTime := if 0 < udTimes.length then udTimes.sum / (udTimes.length : ℚ) else 0
    let errorRate := ((keystrokeData.filter fun k => k.key == "Backspace").length : ℚ)
    let meanHoldTime := if 0 < holdTimes.length then holdTimes.sum / (holdTimes.length : ℚ) else 0
    let varHold := (holdTimes.map fun t => (t - meanHoldTime) * (t - meanHoldTime)).sum /
      (holdTimes.length : ℚ)
    let pressPressure : ℝ := if 0 < holdTimes.length then Real.sqrt ((varHold : ℚ) : ℝ) else 0
    let featureVector : List ℝ :=
      ((holdTimes.take L).map (Rat.cast : ℚ → ℝ)) ++
      ((ddTimes.take (L - 1)).map (Rat.cast : ℚ → ℝ)) ++
      ((udTimes.take (L - 1)).map (Rat.cast : ℚ → ℝ)) ++
      [(typingSpeed : ℝ), (flightTime : ℝ), (errorRate : ℝ), pressPressure]
    -- while (featureVector.length < PASSWORD_LENGTH * 3 + 1) featureVector.push(0)
    let padded := featureVector ++ List.replicate (L * 3 + 1 - featureVector.length) 0
    ⟨holdTimes, ddTimes, udTimes, typingSpeed, flightTime, errorRate, pressPressure, padded⟩

/-! ## validateFeatures (keystroke analyzer file lines 855–879)

The `isNaN` / `isFinite` tests are on raw JS numbers, so the values are modelled with
an explicit representation of `NaN` and the infinities. -/

inductive JsNum where
  | num (q : ℚ)
  | nan
  | inf
  | ninf
deriving DecidableEq

/-- JS `isNaN` restricted to numbers. -/
def jsIsNaN : JsNum → Bool
  | JsNum.nan => true
  | _ => false

/-- JS `isFinite` restricted to numbers. -/
def jsIsFinite : JsNum → Bool
  | JsNum.num _ => true
  | _ => false

/-- The fields of the features object that `validateFeatures` reads. -/
structure JsFeatures where
  holdTimes : List JsNum
  ddTimes : List JsNum
  features : List JsNum
deriving DecidableEq

structure ValidationResult where
  valid : Bool
  reason : Option String
deriving DecidableEq

/-- `KeystrokeAnalyzer.validateFeatures` (keystroke analyzer file lines 855–879).
The `!features || !features.features` guard is modelled by the `none` case (a JS
array, even empty, is truthy, so a present record always passes that guard). -/
def validateFeatures : Option JsFeatures → ValidationResult
  | none => ⟨false, some "No features extracted"⟩
  | some f =>
    if f.features.length = 0 then ⟨false, some "Empty feature vector"⟩
    else if f.features.any jsIsNaN then ⟨false, some "Feature vector contains NaN values"⟩
    else if f.features.any (fun x => !jsIsFinite x) then
      ⟨false, some "Feature vector contains infinite values"⟩
    else if f.holdTimes.length = 0 && f.ddTimes.length = 0 then
      ⟨false, some "Insufficient keystroke timing data"⟩
    else ⟨true, none⟩

/-! ## Voice similarity (voice library file lines 396–463)

`calculateSimilarityScore` only reads the mean cepstral vector and six scalar means of
each `AggregatedVoiceFeatures`; the variance fields play no role and are omitted.  The
early return for `null` arguments is unrepresentable (structures are never null). -/

structure AggregatedVoiceFeatures where
  mfccMean : List ℝ
  spectralCentroidMean : ℝ
  spectralFlatnessMean : ℝ
  spectralRolloffMean : ℝ
  zcrMean : ℝ
  rmsMean : ℝ
  energyMean : ℝ

/-- `minLength = Math.min(...)` (voice library file line 410). -/
def mfccMinLen (f1 f2 : AggregatedVoiceFeatures) : ℕ :=
  min f1.mfccMean.length f2.mfccMean.length

/-- The `dotProduct` accumulator of the cosine-similarity loop (lines 415–419). -/
def mfccDot (f1 f2 : AggregatedVoiceFeatures) : ℝ :=
  ∑ i ∈ Finset.range (mfccMinLen f1 f2), f1.mfccMean.getD i 0 * f2.mfccMean.getD i 0

/-- The `norm1`/`norm2` accumulators of the cosine-similarity loop (lines 415–419). -/
def mfccNormSq (v : List ℝ) (n : ℕ) : ℝ :=
  ∑ i ∈ Finset.range n, v.getD i 0 * v.getD i 0

/-- `magnitude = Math.sqrt(norm1) * Math.sqrt(norm2)` (voice library file line 421). -/
noncomputable def mfccMagnitude (f1 f2 : AggregatedVoiceFeatures) : ℝ :=
  Real.sqrt (mfccNormSq f1.mfccMean (mfccMinLen f1 f2)) *
    Real.sqrt (mfccNormSq f2.mfccMean (mfccMinLen f1 f2))

/-- The MFCC cosine similarity of `calculateSimilarityScore` (voice library file lines
407–423): `0` when either vector is empty or the magnitude is not positive. -/
noncomputable def mfccSimilarity (f1 f2 : AggregatedVoiceFeatures) : ℝ :=
  if 0 < f1.mfccMean.length ∧ 0 < f2.mfccMean.length then
    if 0 < mfccMagnitude f1 f2 then mfccDot f1 f2 / mfccMagnitude f1 f2 else 0
  else 0

/-- The result record of `calculateSimilarityScore`; of `detailedMetrics` only the raw
`mfccSimilarity` entry is kept. -/
structure SimilarityResult where
  overallSimilarity : ℝ
  spectralSimilarity : ℝ
  voiceQualitySimilarity : ℝ
  confidenceScore : ℝ
  mfccSimilarityMetric : ℝ

/-- `calculateSimilarityScore` (voice library file lines 396–463). -/
noncomputable def calculateSimilarityScore (f1 f2 : AggregatedVoiceFeatures) :
    SimilarityResult :=
  let mfccSim := mfccSimilarity f1 f2
  let spectralCentroidDiff := |f1.spectralCentroidMean - f2.spectralCentroidMean|
  let spectralFlatnessDiff := |f1.spectralFlatnessMean - f2.spectralFlatnessMean|
  let spectralRolloffDiff := |f1.spectralRolloffMean - f2.spectralRolloffMean|
  let spectralSimilarity :=
    1 - (spectralCentroidDiff + spectralFlatnessDiff + spectralRolloffDiff) / 3
  let zcrDiff := |f1.zcrMean - f2.zcrMean|
  let rmsDiff := |f1.rmsMean - f2.rmsMean|
  let energyDiff := |f1.energyMean - f2.energyMean|
  let temporalSimilarity := 1 - (zcrDiff + rmsDiff + energyDiff) / 3
  let overallSimilarity := mfccSim * 0.5 + spectralSimilarity * 0.3 + temporalSimilarity * 0.2
  { overallSimilarity := max 0 (min 1 overallSimilarity)
    spectralSimilarity := max 0 (min 1 spectralSimilarity)
    voiceQualitySimilarity := max 0 (min 1 temporalSimilarity)
    confidenceScore := min 1 (max 0 overallSimilarity)
    mfccSimilarityMetric := mfccSim }

/-! ## Storage (libs/storage.js)

IndexedDB object stores are modelled as lists of records; `store.put` replaces the
record with the same primary key `id`.  The HMAC-SHA256 tag is modelled as an abstract
keyed function from the payload to a tag value. -/

/-- The composite primary key of a keystroke model record
(libs/storage.js line 144). -/
def keystrokeModelId (origin username : String) : String :=
  origin ++ "_" ++ username ++ "_keystroke"

/-- A record of the `keystrokeModels` object store (libs/storage.js lines 143–152). -/
structure StoredKeystrokeRecord where
  id : String
  origin : String
  username : String
  modelData : KeystrokeModelData
  signature : ℕ

/-- `GhostKeyStorage.getKeystrokeModel` (libs/storage.js lines 164–189): fetch by id,
recompute the HMAC over the stored payload, and resolve the payload only when the tag
matches; otherwise (or when absent) resolve `null`. -/
def getKeystrokeModel (hmac : KeystrokeModelData → ℕ)
    (db : String → Option StoredKeystrokeRecord) (origin username : String) :
    Option KeystrokeModelData :=
  match db (keystrokeModelId origin username) with
  | none => none
  | some r => if hmac r.modelData = r.signature then some r.modelData else none

/-- The composite primary key of a training-sample record (libs/storage.js line 248).
The JS template literal stringifies `sampleIndex`; the index is modelled by its string
form (the keystroke path passes the decimal form of a number, the voice path a
`voice_`-prefixed string). -/
def trainingSampleId (origin username sampleIndex : String) : String :=
  origin ++ "_" ++ username ++ "_sample_" ++ sampleIndex

/-- A record of the `trainingSamples` object store (libs/storage.js lines 247–255). -/
structure TrainingSampleRecord where
  id : String
  origin : String
  username : String
  sampleIndex : String
  sampleData : List ℚ
  signature : ℕ
deriving DecidableEq

/-- `store.put(record)` on a store with `keyPath: 'id'`: replaces any record with the
same id, otherwise appends. -/
def dbPut (store : List TrainingSampleRecord) (r : TrainingSampleRecord) :
    List TrainingSampleRecord :=
  (store.filter fun s => s.id != r.id) ++ [r]

/-- `GhostKeyStorage.storeTrainingSample` (libs/storage.js lines 243–265). -/
def storeTrainingSample (hmac : List ℚ → ℕ) (store : List TrainingSampleRecord)
    (origin username sampleIndex : String) (sampleData : List ℚ) :
    List TrainingSampleRecord :=
  dbPut store
    ⟨trainingSampleId origin username sampleIndex, origin, username, sampleIndex,
      sampleData, hmac sampleData⟩

/-- `GhostKeyStorage.getTrainingSamples` (libs/storage.js lines 267–291): all records
of the `(origin, username)` index whose HMAC verifies. -/
def getTrainingSamples (hmac : List ℚ → ℕ) (store : List TrainingSampleRecord)
    (origin username : String) : List (List ℚ) :=
  (store.filter fun r =>
    r.origin == origin && r.username == username && hmac r.sampleData == r.signature).map
    fun r => r.sampleData

/-- A sequence of `storeTrainingSample` calls for one `(origin, username)` pair,
starting from an empty store. -/
def runStoreCalls (hmac : List ℚ → ℕ) (origin username : String)
    (calls : List (String × List ℚ)) : List TrainingSampleRecord :=
  calls.foldl (fun st c => storeTrainingSample hmac st origin username c.1 c.2) []

/-! ## background.js handleAuthCheck (lines 51–97)

The handler is a function of the parsed request fields and of the outcome of the
(awaited) storage lookup; a rejected promise / thrown error is the `err` case and
lands in the `catch` block.  The response is the argument pair the handler passes to
its `sendResponse` callback: the `success` flag plus the data payload. -/

inductive PromiseOutcome (α : Type) where
  | ok (v : α)
  | err (msg : String)

/-- The response payload assembled by `handleAuthCheck`; fields absent from a branch
are `none`. -/
structure AuthCheckResponse where
  success : Bool
  message : String
  authenticated : Option Bool
  reason : Option String
  reconstructionError : Option ℚ
  threshold : Option ℚ
  confidence : Option ℚ

/-- `handleAuthCheck` (background.js lines 51–97).  The `!origin || !username ||
!features` guard treats a missing or empty string as falsy; a features array is always
truthy when present.  A storage rejection or a throw inside `authenticateWithModel`
is caught by the `catch` block, which answers `authenticated: false` with a reason. -/
def handleAuthCheck (origin username : Option String) (features : Option (List ℚ))
    (storageResult : PromiseOutcome (Option KeystrokeModelData)) : AuthCheckResponse :=
  if origin.getD "" = "" ∨ username.getD "" = "" ∨ features.isNone then
    ⟨false, "Missing required authentication data", none, none, none, none, none⟩
  else
    match storageResult with
    | PromiseOutcome.err msg =>
      ⟨false, "", some false, some ("Authentication failed: " ++ msg), none, none, none⟩
    | PromiseOutcome.ok none =>
      ⟨false, "", some false, some "No biometric profile found. Please enroll first.",
        none, none, none⟩
    | PromiseOutcome.ok (some modelData) =>
      match authenticateWithModel (features.getD []) modelData with
      | none =>
        ⟨false, "",  some false,
          some ("Authentication failed: " ++ "Invalid model data for autoencoder authentication"),
          none, none, none⟩
      | some r =>
        ⟨true, "", some r.authenticated,
          some (if r.authenticated then "Authentication successful"
            else "Biometric pattern mismatch"),
          some r.reconstructionError, some r.threshold, some r.confidence⟩

/-! ## Concrete sample data used to instantiate the theorems -/

/-- A keydown event. -/
def kd (k : String) (t : ℚ) : KeystrokeEvent := ⟨k, KeyEventType.keydown, t⟩

/-- A keyup event. -/
def ku (k : String) (t : ℚ) : KeystrokeEvent := ⟨k, KeyEventType.keyup, t⟩

/-- Eleven complete keystrokes (paired press/release events). -/
def elevenKeystrokes : List KeystrokeEvent :=
  [kd "a" 0, ku "a" 1, kd "b" 2, ku "b" 3, kd "c" 4, ku "c" 5, kd "d" 6, ku "d" 7,
   kd "e" 8, ku "e" 9, kd "f" 10, ku "f" 11, kd "g" 12, ku "g" 13, kd "h" 14, ku "h" 15,
   kd "i" 16, ku "i" 17, kd "j" 18, ku "j" 19, kd "k" 20, ku "k" 21]

/-- A minimal 1-1-1 autoencoder with zero weights and biases. -/
def aeZero : SimpleAutoencoder := ⟨1, 1, 1, [[0]], [[0]], [[0]], [0], [0], [0]⟩

/-- Sample training stats recording a non-zero max training error. -/
def statsOne : TrainingStats := ⟨5, 0, 1⟩

/-- A concrete stored keystroke model. -/
def modelZero : KeystrokeModelData :=
  ⟨"autoencoder", some aeZero, ⟨[0], [1]⟩, 2, some statsOne⟩

/-- A trivial tag function (every payload tags to 0). -/
def hmacK0 : KeystrokeModelData → ℕ := fun _ => 0

/-- A database whose every record carries a tag (1) that `hmacK0` does not
reproduce: the payload was modified after the tag was stored. -/
def dbTampered : String → Option StoredKeystrokeRecord :=
  fun _ => some ⟨keystrokeModelId "https://example.com" "alice", "https://example.com",
    "alice", modelZero, 1⟩

/-- A trivial training-sample tag function. -/
def hmacS0 : List ℚ → ℕ := fun _ => 0

/-- Two `storeTrainingSample` calls for two distinct `(origin, username)` pairs whose
string-concatenated composite ids collide. -/
def collisionStore : List TrainingSampleRecord :=
  storeTrainingSample hmacS0
    (storeTrainingSample hmacS0 [] "a" "b_sample_3" "7" [1]) "a_b" "sample_3" "7" [2]

/-- A two-sample, two-feature training corpus. -/
def corpusTwo : List (List ℚ) := [[1, 2], [3, 4]]

/-- A voice profile whose mean cepstral vector is the non-zero vector `[1]`. -/
def voiceOne : AggregatedVoiceFeatures := ⟨[1], 0, 0, 0, 0, 0, 0⟩

/-! ## Theorems -/

/-- C9: for every fixed model state and every input vector `x` of the model's input
dimensionality, two evaluations of `forward` on the same model and input return the
same output (the embedding of `forward` is a pure function of the model and input —
the source assigns to no field of `this` — so determinism and non-mutation hold by
construction), and the reconstructed vector has the same dimensionality as `x`. -/
theorem forward_deterministic_same_length_c9 (m : SimpleAutoencoder) (x : List ℚ)
    (h : x.length = m.inputSize) :
    forward m x = forward m x ∧ (forward m x).length = x.length := by
  refine ⟨rfl, ?_⟩
  simp [forward, h]

/-- Witness for C9 at a concrete model and input. -/
theorem forward_deterministic_same_length_c9_witness :
    forward aeZero [2] = forward aeZero [2] ∧ (forward aeZero [2]).length = [(2 : ℚ)].length :=
  forward_deterministic_same_length_c9 aeZero [2] (by decide)

/-- C5: for every keystroke verification request supplying the required parameters,
`handleAuthCheck` resolves to a response carrying an `authenticated` boolean and a
descriptive reason — for every storage outcome, including a rejected storage promise
and a model that makes `authenticateWithModel` throw (both land in the catch block),
so no storage, integrity or model exception escapes the handler. -/
theorem handleAuthCheck_total_c5 (origin username : String) (features : List ℚ)
    (sr : PromiseOutcome (Option KeystrokeModelData))
    (h1 : origin ≠ "") (h2 : username ≠ "") :
    ∃ b reason,
      (handleAuthCheck (some origin) (some username) (some features) sr).authenticated = some b ∧
      (handleAuthCheck (some origin) (some username) (some features) sr).reason = some reason := by
  have hg : ¬((some origin).getD "" = "" ∨ (some username).getD "" = "" ∨
      (some features : Option (List ℚ)).isNone) := by
    simp [h1, h2]
  unfold handleAuthCheck
  rw [if_neg hg]
  cases sr with
  | err msg => exact ⟨false, _, rfl, rfl⟩
  | ok v =>
    cases v with
    | none => exact ⟨false, _, rfl, rfl⟩
    | some md =>
      cases hA : authenticateWithModel ((some features : Option (List ℚ)).getD []) md with
      | none => simp only [hA]; exact ⟨false, _, rfl, rfl⟩
      | some r => simp only [hA]; exact ⟨r.authenticated, _, rfl, rfl⟩

/-- Witness for C5 at a concrete request whose storage lookup rejects. -/
theorem handleAuthCheck_total_c5_witness :
    ∃ b reason,
      (handleAuthCheck (some "https://example.com") (some "alice") (some [1])
          (PromiseOutcome.err "backend unavailable")).authenticated = some b ∧
      (handleAuthCheck (some "https://example.com") (some "alice") (some [1])
          (PromiseOutcome.err "backend unavailable")).reason = some reason :=
  handleAuthCheck_total_c5 "https://example.com" "alice" [1]
    (PromiseOutcome.err "backend unavailable") (by decide) (by decide)

/-- C4: for every stored record whose payload no longer matches its tag, and for every
id that was never persisted, `getKeystrokeModel` resolves `null`, and the subsequent
`handleAuthCheck` reports not authenticated with the no-profile reason — never an
authenticated result. -/
theorem tamperedProfile_failsClosed_c4 (hmac : KeystrokeModelData → ℕ)
    (db : String → Option StoredKeystrokeRecord) (origin username : String)
    (feats : List ℚ) (h1 : origin ≠ "") (h2 : username ≠ "")
    (h : ∀ r, db (keystrokeModelId origin username) = some r →
      hmac r.modelData ≠ r.signature) :
    getKeystrokeModel hmac db origin username = none ∧
    (handleAuthCheck (some origin) (some username) (some feats)
        (PromiseOutcome.ok (getKeystrokeModel hmac db origin username))).authenticated =
      some false ∧
    (handleAuthCheck (some origin) (some username) (some feats)
        (PromiseOutcome.ok (getKeystrokeModel hmac db origin username))).reason =
      some "No biometric profile found. Please enroll first." := by
  have hg : ¬((some origin).getD "" = "" ∨ (some username).getD "" = "" ∨
      (some feats : Option (List ℚ)).isNone) := by
    simp [h1, h2]
  have hnone : getKeystrokeModel hmac db origin username = none := by
    unfold getKeystrokeModel
    cases hdb : db (keystrokeModelId origin username) with
    | none => rfl
    | some r => simp [h r hdb]
  refine ⟨hnone, ?_, ?_⟩ <;>
    · rw [hnone]
      unfold handleAuthCheck
      rw [if_neg hg]

/-- Witness for C4: a database whose record for the looked-up id carries a tag the
recomputation does not reproduce. -/
theorem tamperedProfile_failsClosed_c4_witness :
    getKeystrokeModel hmacK0 dbTampered "https://example.com" "alice" = none ∧
    (handleAuthCheck (some "https://example.com") (some "alice") (some [1])
        (PromiseOutcome.ok
          (getKeystrokeModel hmacK0 dbTampered "https://example.com" "alice"))).authenticated =
      some false ∧
    (handleAuthCheck (some "https://example.com") (some "alice") (some [1])
        (PromiseOutcome.ok
          (getKeystrokeModel hmacK0 dbTampered "https://example.com" "alice"))).reason =
      some "No biometric profile found. Please enroll first." :=
  tamperedProfile_failsClosed_c4 hmacK0 dbTampered "https://example.com" "alice" [1]
    (by decide) (by decide) (fun r hr => by cases hr; decide)

/-- C2 counterexample: the vector scored against the model is
`normalizeWithParams min max features` (it is the input both of the forward pass and
of the mean-squared-error loop of `authenticateWithModel`); with stored parameters of
length `n = 1` and an input of length 2 it has length 2, not `n`: extra dimensions are
zero-filled and kept, not dropped. -/
theorem normalizeWithParams_length_counterexample_c2 :
    (normalizeWithParams [0] [1] [1 / 2, 3]).length = 2 ∧
    (normalizeWithParams [0] [1] [1 / 2, 3]).length ≠ ([(0 : ℚ)] : List ℚ).length := by
  constructor <;> decide

/-- C2 (amended): for every input, `authenticateWithModel` normalizes it to a vector
with the length of the input itself, not the stored parameter length `n` — so an input
shorter than `n` is scored as-is, never zero-filled up to `n`, and an equal-length
input keeps its length — and any entry at an index at or beyond `n` is set to `0` but
kept (it enters the mean-squared error, whose loop runs over this vector). -/
theorem normalizeWithParams_shape_c2 (pMin pMax f : List ℚ) :
    (normalizeWithParams pMin pMax f).length = f.length ∧
    ∀ i, pMin.length ≤ i → i < f.length →
      (normalizeWithParams pMin pMax f).getD i 0 = 0 := by
  constructor
  · simp [normalizeWithParams]
  · intro i h1 h2
    have hi : (normalizeWithParams pMin pMax f).get? i =
        some 0 := by
      unfold normalizeWithParams
      rw [List.get?_map]
      have he : f.enum.get? i = some (i, f.get ⟨i, h2⟩) := by
        rw [List.get?_eq_get (by simpa using h2)]
        simp [List.get_enum]
      rw [he]
      simp [if_pos (Or.inl h1)]
    rw [List.getD_eq_get?, hi]
    rfl

/-- Witness for C2 (amended): with stored length 1, a length-2 input keeps length 2
and its extra entry is zero-filled; with stored length 2, a length-1 input keeps
length 1 (scored as-is, not extended). -/
theorem normalizeWithParams_shape_c2_witness :
    ((normalizeWithParams [0] [1] [1 / 2, 3]).length = ([(1 : ℚ) / 2, 3] : List ℚ).length ∧
      (normalizeWithParams [0] [1] [1 / 2, 3]).getD 1 0 = 0) ∧
    (normalizeWithParams [0, 0] [1, 1] [1 / 2]).length = ([(1 : ℚ) / 2] : List ℚ).length :=
  ⟨⟨(normalizeWithParams_shape_c2 [0] [1] [1 / 2, 3]).1,
    (normalizeWithParams_shape_c2 [0] [1] [1 / 2, 3]).2 1 (by decide) (by decide)⟩,
    (normalizeWithParams_shape_c2 [0, 0] [1, 1] [1 / 2]).1⟩

/-- C7: every keystroke verification result of `authenticateWithModel` satisfies
`authenticated ↔ reconstruction error ≤ stored threshold`, and when the profile
records a non-zero maximum training error the confidence is
`clamp(1 − error / (2 · maxTrainingError), 0, 1)`.  (A recorded maximum of `0` is
falsy in JS and is replaced by `threshold * 2`, and the claim's formula would divide
by zero there, so the non-zero hypothesis is implicit in the claim.) -/
theorem authenticateWithModel_decision_confidence_c7 (f : List ℚ)
    (m : KeystrokeModelData) (ae : SimpleAutoencoder) (st : TrainingStats)
    (hA : m.autoencoder = some ae) (hM : m.modelType = "autoencoder")
    (hS : m.trainingStats = some st) (hE : st.maxError ≠ 0) :
    ∃ r, authenticateWithModel f m = some r ∧
      (r.authenticated = true ↔ r.reconstructionError ≤ m.threshold) ∧
      r.confidence = max 0 (min 1 (1 - r.reconstructionError / (2 * st.maxError))) := by
  unfold authenticateWithModel
  rw [hA]
  dsimp only
  rw [if_pos hM]
  refine ⟨_, rfl, ?_, ?_⟩
  · simp [decide_eq_true_eq]
  · simp only [hS]
    rw [if_neg hE, mul_comm st.maxError 2]

/-- Witness for C7 at a concrete model with recorded max training error 1. -/
theorem authenticateWithModel_decision_confidence_c7_witness :
    ∃ r, authenticateWithModel [1] modelZero = some r ∧
      (r.authenticated = true ↔ r.reconstructionError ≤ modelZero.threshold) ∧
      r.confidence = max 0 (min 1 (1 - r.reconstructionError / (2 * statsOne.maxError))) :=
  authenticateWithModel_decision_confidence_c7 [1] modelZero aeZero statsOne
    rfl rfl rfl (by decide)

/-- C1 counterexample: with the configured `L = PASSWORD_LENGTH = 11` and eleven
complete keystrokes, the extractor emits `11` hold times, `10` press-press deltas,
`10` flight deltas and the four scalars — `3·L + 2 = 35` entries — and the padding
loop only appends, never truncates, so the vector does not have `3·L + 1 = 34`
entries. -/
theorem extractFeatures_full_capture_counterexample_c1 :
    (extractFeatures PASSWORD_LENGTH elevenKeystrokes).features.length =
      3 * PASSWORD_LENGTH + 2 ∧
    (extractFeatures PASSWORD_LENGTH elevenKeystrokes).features.length ≠
      3 * PASSWORD_LENGTH + 1 := by
  constructor <;> decide

/-- C1 (amended): for `L ≥ 1`, a non-empty captured sequence yields a feature vector
with at least `3L+1` and at most `3L+2` entries (exactly `3L+1` via zero-padding when
fewer than `L` hold times or fewer than `L−1` delta pairs exist, `3L+2` on a full
capture, since the padding loop never truncates); the empty sequence yields an empty
vector; and a vector accepted by `validateFeatures` contains no NaN and no infinite
value. -/
theorem extractFeatures_length_bounds_c1 (L : ℕ) (hL : 1 ≤ L)
    (data : List KeystrokeEvent) :
    (data.length = 0 → (extractFeatures L data).features = []) ∧
    (data.length ≠ 0 →
      3 * L + 1 ≤ (extractFeatures L data).features.length ∧
      (extractFeatures L data).features.length ≤ 3 * L + 2) ∧
    (∀ g : JsFeatures, (validateFeatures (some g)).valid = true →
      ∀ v ∈ g.features, jsIsNaN v = false ∧ jsIsFinite v = true) := by
  refine ⟨?_, ?_, ?_⟩
  · intro h
    unfold extractFeatures
    rw [if_pos h]
  · intro h
    unfold extractFeatures
    rw [if_neg h]
    dsimp only
    simp only [List.length_append, List.length_replicate, List.length_map,
      List.length_take, List.length_cons, List.length_nil]
    omega
  · intro g hv v hmem
    have h0 : ¬g.features.length = 0 := by
      intro h0
      simp [validateFeatures, h0] at hv
    have hN : ¬g.features.any jsIsNaN = true := by
      intro hN
      simp [validateFeatures, h0, hN] at hv
    have hI : ¬g.features.any (fun x => !jsIsFinite x) = true := by
      intro hI
      simp [validateFeatures, h0, hN, hI] at hv
    rw [List.any_eq_true] at hN hI
    push_neg at hN hI
    constructor
    · cases hb : jsIsNaN v with
      | false => rfl
      | true => exact absurd hb (hN v hmem)
    · cases hb : jsIsFinite v with
      | true => rfl
      | false => exact absurd (by simp [hb]) (hI v hmem)

/-- Witness for C1 (amended): the bounds hold on a concrete non-empty capture. -/
theorem extractFeatures_length_bounds_c1_witness :
    3 * 11 + 1 ≤ (extractFeatures 11 elevenKeystrokes).features.length ∧
    (extractFeatures 11 elevenKeystrokes).features.length ≤ 3 * 11 + 2 :=
  (extractFeatures_length_bounds_c1 11 (by decide) elevenKeystrokes).2.1 (by decide)

/-- The mean-squared-error loop never yields a negative value. -/
theorem mseLoop_nonneg (xs ys : List ℚ) : 0 ≤ mseLoop xs ys := by
  unfold mseLoop
  apply div_nonneg
  · apply List.sum_nonneg
    intro x hx
    simp only [List.mem_map] at hx
    obtain ⟨i, _, rfl⟩ := hx
    exact mul_self_nonneg _
  · exact_mod_cast Nat.zero_le _

/-- On a non-empty list of non-negative errors, `selectThreshold` is the maximum of
the 95th-percentile value and the configured floor (the JS `|| AUTOENCODER_THRESHOLD`
on a zero percentile value does not change this maximum). -/
theorem selectThreshold_eq_max (errors : List ℚ) (hne : errors ≠ [])
    (hnn : ∀ e ∈ errors, 0 ≤ e) :
    selectThreshold errors = max (percentile95 errors) AUTOENCODER_THRESHOLD := by
  unfold selectThreshold percentile95
  dsimp only
  set s := errors.insertionSort (· ≤ ·) with hs
  have hpos : 0 < s.length := by
    rw [hs, List.length_insertionSort]
    exact List.length_pos.mpr hne
  have hidx : s.length * 95 / 100 < s.length := by
    rw [Nat.div_lt_iff_lt_mul (by norm_num)]
    omega
  have hv : s.get? (s.length * 95 / 100) = some (s.get ⟨s.length * 95 / 100, hidx⟩) :=
    List.get?_eq_get hidx
  have hvD : s.getD (s.length * 95 / 100) 0 = s.get ⟨s.length * 95 / 100, hidx⟩ := by
    rw [List.getD_eq_get?, hv]
    rfl
  have hmem : s.get ⟨s.length * 95 / 100, hidx⟩ ∈ errors :=
    (List.perm_insertionSort (· ≤ ·) errors).subset (List.get_mem _ _ _)
  have h0 : 0 ≤ s.get ⟨s.length * 95 / 100, hidx⟩ := hnn _ hmem
  rw [hv, hvD]
  dsimp only
  by_cases hz : s.get ⟨s.length * 95 / 100, hidx⟩ = 0
  · rw [if_pos hz, hz, max_self, max_eq_right (by norm_num [AUTOENCODER_THRESHOLD])]
  · rw [if_neg hz]

/-- C3: for every trained autoencoder and every original (non-augmented) normalized
corpus with at least the required number of samples, the selected threshold equals
the maximum of the 95th-percentile value of the ascending-sorted reconstruction
errors and the configured floor `0.03`, and is therefore never below the floor. -/
theorem trainThreshold_percentile_and_floor_c3 (ae : SimpleAutoencoder)
    (samples : List (List ℚ)) (h : SAMPLES_REQUIRED ≤ samples.length) :
    trainKeystrokeModelThreshold ae samples =
      max (percentile95 (reconstructionErrors ae samples)) AUTOENCODER_THRESHOLD ∧
    AUTOENCODER_THRESHOLD ≤ trainKeystrokeModelThreshold ae samples := by
  have hne : reconstructionErrors ae samples ≠ [] := by
    unfold reconstructionErrors
    simp only [ne_eq, List.map_eq_nil]
    intro hs
    rw [hs] at h
    simp [SAMPLES_REQUIRED] at h
  have hnn : ∀ e ∈ reconstructionErrors ae samples, 0 ≤ e := by
    intro e he
    unfold reconstructionErrors at he
    simp only [List.mem_map] at he
    obtain ⟨s, _, rfl⟩ := he
    exact mseLoop_nonneg _ _
  have heq : trainKeystrokeModelThreshold ae samples =
      max (percentile95 (reconstructionErrors ae samples)) AUTOENCODER_THRESHOLD :=
    selectThreshold_eq_max _ hne hnn
  exact ⟨heq, heq ▸ le_max_right _ _⟩

/-- Witness for C3 on a five-sample corpus. -/
theorem trainThreshold_percentile_and_floor_c3_witness :
    trainKeystrokeModelThreshold aeZero [[0], [0], [0], [0], [0]] =
      max (percentile95 (reconstructionErrors aeZero [[0], [0], [0], [0], [0]]))
        AUTOENCODER_THRESHOLD ∧
    AUTOENCODER_THRESHOLD ≤ trainKeystrokeModelThreshold aeZero [[0], [0], [0], [0], [0]] :=
  trainThreshold_percentile_and_floor_c3 aeZero [[0], [0], [0], [0], [0]] (by decide)

/-- C6: for every `AggregatedVoiceFeatures` with a non-zero mean cepstral vector,
`calculateSimilarityScore(a, a)` has overall similarity exactly `1` (the cepstral
cosine similarity of the vector with itself is `1`, the spectral and temporal
differences vanish, and the weights sum to `1`); and the cepstral similarity is `0`
whenever the magnitude product is `0`. -/
theorem voiceSelfSimilarity_c6 (a : AggregatedVoiceFeatures)
    (h : ∃ x ∈ a.mfccMean, x ≠ 0) :
    (calculateSimilarityScore a a).overallSimilarity = 1 ∧
    ∀ b : AggregatedVoiceFeatures, mfccMagnitude a b = 0 → mfccSimilarity a b = 0 := by
  obtain ⟨x, hxmem, hx⟩ := h
  have hlenpos : 0 < a.mfccMean.length := List.length_pos.mpr (List.ne_nil_of_mem hxmem)
  have hminlen : mfccMinLen a a = a.mfccMean.length := min_self _
  have hS0 : 0 ≤ mfccNormSq a.mfccMean (mfccMinLen a a) := by
    unfold mfccNormSq
    exact Finset.sum_nonneg fun i _ => mul_self_nonneg _
  obtain ⟨⟨j, hj⟩, hget⟩ := List.mem_iff_get.mp hxmem
  have hgetD : a.mfccMean.getD j 0 = x := by
    rw [List.getD_eq_get?, List.get?_eq_get hj, hget]
    rfl
  have hSpos : 0 < mfccNormSq a.mfccMean (mfccMinLen a a) := by
    have hterm : 0 < a.mfccMean.getD j 0 * a.mfccMean.getD j 0 := by
      rw [hgetD]
      exact mul_self_pos.mpr hx
    have hle : a.mfccMean.getD j 0 * a.mfccMean.getD j 0 ≤
        mfccNormSq a.mfccMean (mfccMinLen a a) := by
      unfold mfccNormSq
      refine Finset.single_le_sum (f := fun i => a.mfccMean.getD i 0 * a.mfccMean.getD i 0)
        (fun i _ => mul_self_nonneg _) ?_
      rw [hminlen]
      exact Finset.mem_range.mpr hj
    exact lt_of_lt_of_le hterm hle
  have hdot : mfccDot a a = mfccNormSq a.mfccMean (mfccMinLen a a) := rfl
  have hmag : mfccMagnitude a a = mfccNormSq a.mfccMean (mfccMinLen a a) :=
    Real.mul_self_sqrt hS0
  have hsim : mfccSimilarity a a = 1 := by
    unfold mfccSimilarity
    rw [if_pos ⟨hlenpos, hlenpos⟩, if_pos (by rw [hmag]; exact hSpos), hdot, hmag,
      div_self (ne_of_gt hSpos)]
  constructor
  · unfold calculateSimilarityScore
    dsimp only
    rw [hsim]
    simp only [sub_self, abs_zero]
    norm_num
  · intro b hm
    unfold mfccSimilarity
    rw [hm]
    simp

/-- Witness for C6 at the concrete profile with cepstral vector `[1]`. -/
theorem voiceSelfSimilarity_c6_witness :
    (calculateSimilarityScore voiceOne voiceOne).overallSimilarity = 1 ∧
    ∀ b : AggregatedVoiceFeatures, mfccMagnitude voiceOne b = 0 →
      mfccSimilarity voiceOne b = 0 :=
  voiceSelfSimilarity_c6 voiceOne ⟨1, by simp [voiceOne], one_ne_zero⟩

/-- C8 counterexample: the string-concatenated composite id does not separate
`(origin, username)` pairs — `("a", "b_sample_3")` and `("a_b", "sample_3")` produce
the same id at index `"7"`, so the second `storeTrainingSample` call overwrites the
first pair's record, and the first pair, though it stored one sample at one distinct
index, has zero stored samples. -/
theorem storeTrainingSample_collision_counterexample_c8 :
    trainingSampleId "a" "b_sample_3" "7" = trainingSampleId "a_b" "sample_3" "7" ∧
    (getTrainingSamples hmacS0 collisionStore "a" "b_sample_3").length = 0 ∧
    (getTrainingSamples hmacS0 collisionStore "a" "b_sample_3").length ≠ 1 := by
  refine ⟨by decide, by decide, by decide⟩

/-- Appending on the left is cancellative for strings. -/
theorem string_append_left_cancel {a b c : String} (h : a ++ b = a ++ c) : b = c := by
  have hd : (a ++ b).data = (a ++ c).data := by rw [h]
  simp only [String.data_append] at hd
  have h2 := List.append_cancel_left hd
  cases b
  cases c
  simp_all

/-- For one fixed `(origin, username)` pair the composite training-sample id is
injective in the index. -/
theorem trainingSampleId_inj (o u : String) {i j : String}
    (h : trainingSampleId o u i = trainingSampleId o u j) : i = j := by
  unfold trainingSampleId at h
  exact string_append_left_cancel h

/-- `if v < m then v else m` is `min m v`. -/
theorem ite_lt_eq_min (m v : ℚ) : (if v < m then v else m) = min m v := by
  rcases lt_or_le v m with hc | hc
  · rw [if_pos hc, min_eq_right (le_of_lt hc)]
  · rw [if_neg (not_lt.mpr hc), min_eq_left hc]

/-- `if m < v then v else m` is `max m v`. -/
theorem ite_lt_eq_max (m v : ℚ) : (if m < v then v else m) = max m v := by
  rcases lt_or_le m v with hc | hc
  · rw [if_pos hc, max_eq_right (le_of_lt hc)]
  · rw [if_neg (not_lt.mpr hc), max_eq_left hc]

/-- Invariant of a run of `storeTrainingSample` calls for one `(origin, username)`
pair: every record carries the pair, its composite id, and a valid tag; the stored
indices are pairwise distinct; and the set of stored indices is the set of indices of
the initial store together with the indices used by the calls. -/
theorem storeTrainingSample_invariant (hmac : List ℚ → ℕ) (o u : String) :
    ∀ (calls : List (String × List ℚ)) (store : List TrainingSampleRecord),
      (∀ r ∈ store, r.origin = o ∧ r.username = u ∧
        r.id = trainingSampleId o u r.sampleIndex ∧ r.signature = hmac r.sampleData) →
      ((store.map fun r => r.sampleIndex).Nodup) →
      ((∀ r ∈ calls.foldl (fun st c => storeTrainingSample hmac st o u c.1 c.2) store,
          r.origin = o ∧ r.username = u ∧
          r.id = trainingSampleId o u r.sampleIndex ∧ r.signature = hmac r.sampleData) ∧
        (((calls.foldl (fun st c => storeTrainingSample hmac st o u c.1 c.2) store).map
          fun r => r.sampleIndex).Nodup) ∧
        ((calls.foldl (fun st c => storeTrainingSample hmac st o u c.1 c.2) store).map
          fun r => r.sampleIndex).toFinset =
          (store.map fun r => r.sampleIndex).toFinset ∪ (calls.map Prod.fst).toFinset) := by
  intro calls
  induction calls with
  | nil =>
    intro store hG hN
    exact ⟨hG, hN, by simp⟩
  | cons c rest ih =>
    intro store hG hN
    simp only [List.foldl_cons]
    have hstep : storeTrainingSample hmac store o u c.1 c.2 =
        (store.filter fun s => s.id != trainingSampleId o u c.1) ++
          [⟨trainingSampleId o u c.1, o, u, c.1, c.2, hmac c.2⟩] := rfl
    -- every record of the filtered store has an index different from c.1
    have hfiltNe : ∀ s ∈ (store.filter fun s => s.id != trainingSampleId o u c.1),
        s.sampleIndex ≠ c.1 := by
      intro s hs
      rw [List.mem_filter] at hs
      obtain ⟨hsmem, hsb⟩ := hs
      rw [bne_iff_ne] at hsb
      intro hidx
      exact hsb ((hG s hsmem).2.2.1.trans (by rw [hidx]))
    have hG' : ∀ r ∈ storeTrainingSample hmac store o u c.1 c.2,
        r.origin = o ∧ r.username = u ∧
        r.id = trainingSampleId o u r.sampleIndex ∧ r.signature = hmac r.sampleData := by
      intro r hr
      rw [hstep, List.mem_append] at hr
      rcases hr with hr | hr
      · exact hG r (List.mem_filter.mp hr).1
      · rw [List.mem_singleton] at hr
        subst hr
        exact ⟨rfl, rfl, rfl, rfl⟩
    have hN' : ((storeTrainingSample hmac store o u c.1 c.2).map
        fun r => r.sampleIndex).Nodup := by
      rw [hstep, List.map_append, List.nodup_append]
      refine ⟨?_, by simp, ?_⟩
      · exact ((List.filter_sublist store).map fun r => r.sampleIndex).nodup hN
      · intro a ha hb
        simp only [List.map_cons, List.map_nil, List.mem_singleton] at hb
        subst hb
        rw [List.mem_map] at ha
        obtain ⟨s, hs, hsi⟩ := ha
        exact hfiltNe s hs hsi
    have hT' : ((storeTrainingSample hmac store o u c.1 c.2).map
        fun r => r.sampleIndex).toFinset =
        insert c.1 (store.map fun r => r.sampleIndex).toFinset := by
      rw [hstep, List.map_append, List.toFinset_append]
      ext a
      simp only [Finset.mem_union, List.mem_toFinset, List.mem_map, List.mem_filter,
        List.map_cons, List.map_nil, List.mem_singleton, Finset.mem_insert]
      constructor
      · rintro (⟨s, ⟨hs, _⟩, rfl⟩ | rfl)
        · exact Or.inr ⟨s, hs, rfl⟩
        · exact Or.inl rfl
      · rintro (rfl | ⟨s, hs, rfl⟩)
        · exact Or.inr rfl
        · by_cases hid : s.id = trainingSampleId o u c.1
          · right
            have hsid := (hG s hs).2.2.1
            exact (trainingSampleId_inj o u (hsid.symm.trans hid)).symm ▸ rfl
          · exact Or.inl ⟨s, ⟨hs, bne_iff_ne.mpr hid⟩, rfl⟩
    obtain ⟨ihG, ihN, ihT⟩ := ih (storeTrainingSample hmac store o u c.1 c.2) hG' hN'
    refine ⟨ihG, ihN, ?_⟩
    rw [ihT, hT', List.map_cons, List.toFinset_cons]
    ext a
    simp only [Finset.mem_union, Finset.mem_insert, List.mem_toFinset]
    tauto

/-- C8 (amended): for every sequence of `storeTrainingSample` calls that all target
one `(origin, username)` pair, starting from an empty store, the number of samples
stored for that pair equals the number of distinct index keys used (re-submitting an
index overwrites in place), and it never exceeds `R` when every index key is the
decimal form of a number below `R`.  (The unrestricted claim fails because composite
ids of different pairs can collide — see the counterexample.) -/
theorem storeTrainingSample_idempotent_count_c8 (hmac : List ℚ → ℕ) (o u : String)
    (calls : List (String × List ℚ)) (R : ℕ)
    (hR : ∀ i ∈ calls.map Prod.fst, i ∈ (List.range R).map fun n => toString n) :
    (getTrainingSamples hmac (runStoreCalls hmac o u calls) o u).length =
      (calls.map Prod.fst).dedup.length ∧
    (getTrainingSamples hmac (runStoreCalls hmac o u calls) o u).length ≤ R := by
  unfold runStoreCalls
  obtain ⟨hG, hN, hT⟩ :=
    storeTrainingSample_invariant hmac o u calls [] (by simp) (by simp)
  have hfilter : ((calls.foldl (fun st c => storeTrainingSample hmac st o u c.1 c.2)
      []).filter fun r =>
      r.origin == o && r.username == u && hmac r.sampleData == r.signature) =
      calls.foldl (fun st c => storeTrainingSample hmac st o u c.1 c.2) [] := by
    rw [List.filter_eq_self]
    intro r hr
    obtain ⟨h1, h2, _, h4⟩ := hG r hr
    simp [h1, h2, h4]
  have hcount : (getTrainingSamples hmac
      (calls.foldl (fun st c => storeTrainingSample hmac st o u c.1 c.2) []) o u).length =
      ((calls.foldl (fun st c => storeTrainingSample hmac st o u c.1 c.2) []).map
        fun r => r.sampleIndex).length := by
    unfold getTrainingSamples
    rw [hfilter, List.length_map, List.length_map]
  have hTs : ((calls.foldl (fun st c => storeTrainingSample hmac st o u c.1 c.2) []).map
      fun r => r.sampleIndex).toFinset = (calls.map Prod.fst).toFinset := by
    rw [hT]
    simp
  have heq : (getTrainingSamples hmac
      (calls.foldl (fun st c => storeTrainingSample hmac st o u c.1 c.2) []) o u).length =
      (calls.map Prod.fst).dedup.length := by
    rw [hcount, ← hN.dedup, ← List.card_toFinset, hTs, List.card_toFinset]
  refine ⟨heq, ?_⟩
  rw [heq, ← List.card_toFinset]
  have hsub : (calls.map Prod.fst).toFinset ⊆
      ((List.range R).map fun n => toString n).toFinset := by
    intro a ha
    rw [List.mem_toFinset] at ha ⊢
    exact hR a ha
  calc (calls.map Prod.fst).toFinset.card
      ≤ ((List.range R).map fun n => toString n).toFinset.card := Finset.card_le_card hsub
    _ ≤ ((List.range R).map fun n => toString n).length := List.toFinset_card_le _
    _ = R := by simp

/-- Witness for C8 (amended): three calls for one pair using two distinct indices. -/
theorem storeTrainingSample_idempotent_count_c8_witness :
    (getTrainingSamples hmacS0 (runStoreCalls hmacS0 "https://example.com" "alice"
        [("0", [1]), ("0", [2]), ("1", [3])]) "https://example.com" "alice").length =
      (([("0", [(1 : ℚ)]), ("0", [2]), ("1", [3])].map Prod.fst).dedup).length ∧
    (getTrainingSamples hmacS0 (runStoreCalls hmacS0 "https://example.com" "alice"
        [("0", [1]), ("0", [2]), ("1", [3])]) "https://example.com" "alice").length ≤ 5 :=
  storeTrainingSample_idempotent_count_c8 hmacS0 "https://example.com" "alice"
    [("0", [1]), ("0", [2]), ("1", [3])] 5 (by decide)

/-- The minimum-update fold of `colMinOpt`, started from a value, computes the
running minimum of the present column entries. -/
theorem colMinOpt_foldl_acc (i : ℕ) :
    ∀ (fs : List (List ℚ)) (a : ℚ),
      fs.foldl (fun m s =>
        match s.get? i with
        | none => m
        | some v =>
          match m with
          | none => some v
          | some m' => some (if v < m' then v else m')) (some a) =
      some ((fs.filterMap fun s => s.get? i).foldl min a) := by
  intro fs
  induction fs with
  | nil => intro a; rfl
  | cons s rest ih =>
    intro a
    rw [List.foldl_cons, List.filterMap_cons]
    cases hsv : s.get? i with
    | none => exact ih a
    | some v =>
      dsimp only
      rw [ite_lt_eq_min, List.foldl_cons]
      exact ih (min a v)

/-- `colMinOpt` is `List.min?` of the present column entries. -/
theorem colMinOpt_eq_min? (i : ℕ) (fs : List (List ℚ)) :
    colMinOpt fs i = (fs.filterMap fun s => s.get? i).min? := by
  unfold colMinOpt
  induction fs with
  | nil => rfl
  | cons s rest ih =>
    rw [List.foldl_cons, List.filterMap_cons]
    cases hsv : s.get? i with
    | none => exact ih
    | some v =>
      dsimp only
      rw [colMinOpt_foldl_acc]
      rfl

/-- The maximum-update fold of `colMaxOpt`, started from a value, computes the
running maximum of the present column entries. -/
theorem colMaxOpt_foldl_acc (i : ℕ) :
    ∀ (fs : List (List ℚ)) (a : ℚ),
      fs.foldl (fun m s =>
        match s.get? i with
        | none => m
        | some v =>
          match m with
          | none => some v
          | some m' => some (if m' < v then v else m')) (some a) =
      some ((fs.filterMap fun s => s.get? i).foldl max a) := by
  intro fs
  induction fs with
  | nil => intro a; rfl
  | cons s rest ih =>
    intro a
    rw [List.foldl_cons, List.filterMap_cons]
    cases hsv : s.get? i with
    | none => exact ih a
    | some v =>
      dsimp only
      rw [ite_lt_eq_max, List.foldl_cons]
      exact ih (max a v)

/-- `colMaxOpt` is `List.max?` of the present column entries. -/
theorem colMaxOpt_eq_max? (i : ℕ) (fs : List (List ℚ)) :
    colMaxOpt fs i = (fs.filterMap fun s => s.get? i).max? := by
  unfold colMaxOpt
  induction fs with
  | nil => rfl
  | cons s rest ih =>
    rw [List.foldl_cons, List.filterMap_cons]
    cases hsv : s.get? i with
    | none => exact ih
    | some v =>
      dsimp only
      rw [colMaxOpt_foldl_acc]
      rfl

/-- `List.min?` specification over the rationals. -/
theorem rat_min?_spec {xs : List ℚ} {a : ℚ} (h : xs.min? = some a) :
    a ∈ xs ∧ ∀ b ∈ xs, a ≤ b := by
  haveI : Std.Antisymm fun (x1 x2 : ℚ) => x1 ≤ x2 := ⟨fun h1 h2 => le_antisymm h1 h2⟩
  exact (List.min?_eq_some_iff (fun a => le_refl a) min_choice (fun _ _ _ => le_min_iff)).mp h

/-- `List.max?` specification over the rationals. -/
theorem rat_max?_spec {xs : List ℚ} {a : ℚ} (h : xs.max? = some a) :
    a ∈ xs ∧ ∀ b ∈ xs, b ≤ a := by
  haveI : Std.Antisymm fun (x1 x2 : ℚ) => x1 ≤ x2 := ⟨fun h1 h2 => le_antisymm h1 h2⟩
  exact (List.max?_eq_some_iff (fun a => le_refl a) max_choice (fun _ _ _ => max_le_iff)).mp h

/-- For each column of an equal-length non-empty corpus, `colMinOpt`/`colMaxOpt`
return the attained corpus-wide minimum and maximum of that column. -/
theorem colMinMax_spec (features : List (List ℚ)) (hne : features ≠ [])
    (hlen : ∀ s ∈ features, s.length = featureCount features)
    (i : ℕ) (hi : i < featureCount features) :
    ∃ mn mx, colMinOpt features i = some mn ∧ colMaxOpt features i = some mx ∧
      (∀ s ∈ features, mn ≤ s.getD i 0 ∧ s.getD i 0 ≤ mx) ∧
      (∃ s ∈ features, s.getD i 0 = mn) ∧ (∃ s ∈ features, s.getD i 0 = mx) := by
  have hget : ∀ s ∈ features, s.get? i = some (s.getD i 0) := by
    intro s hs
    have hlt : i < s.length := by rw [hlen s hs]; exact hi
    rw [List.getD_eq_get?, List.get?_eq_get hlt]
    rfl
  have hvals : features.filterMap (fun s => s.get? i) ≠ [] := by
    obtain ⟨s0, rest, rfl⟩ := List.exists_cons_of_ne_nil hne
    rw [List.filterMap_cons, hget s0 (List.mem_cons_self s0 rest)]
    simp
  obtain ⟨v0, vs, hv0⟩ :=
    List.exists_cons_of_ne_nil hvals
  have hmin : ∃ mn, (features.filterMap fun s => s.get? i).min? = some mn := by
    rw [hv0]
    exact ⟨_, rfl⟩
  have hmax : ∃ mx, (features.filterMap fun s => s.get? i).max? = some mx := by
    rw [hv0]
    exact ⟨_, rfl⟩
  obtain ⟨mn, hmn⟩ := hmin
  obtain ⟨mx, hmx⟩ := hmax
  obtain ⟨hmnmem, hmnle⟩ := rat_min?_spec hmn
  obtain ⟨hmxmem, hmxle⟩ := rat_max?_spec hmx
  refine ⟨mn, mx, by rw [colMinOpt_eq_min?, hmn], by rw [colMaxOpt_eq_max?, hmx],
    ?_, ?_, ?_⟩
  · intro s hs
    have hv : s.getD i 0 ∈ features.filterMap fun s => s.get? i :=
      List.mem_filterMap.mpr ⟨s, hs, hget s hs⟩
    exact ⟨hmnle _ hv, hmxle _ hv⟩
  · obtain ⟨s, hs, hsv⟩ := List.mem_filterMap.mp hmnmem
    refine ⟨s, hs, ?_⟩
    rw [hget s hs] at hsv
    exact Option.some_injective _ hsv
  · obtain ⟨s, hs, hsv⟩ := List.mem_filterMap.mp hmxmem
    refine ⟨s, hs, ?_⟩
    rw [hget s hs] at hsv
    exact Option.some_injective _ hsv

/-- C10: on a non-empty list of equal-length feature vectors, `normalizeFeatures`
returns per-feature minima and maxima that are the attained corpus-wide minimum and
maximum of each feature, every normalized value lies in `[0, 1]`, and a feature with
zero range is mapped to `0` for every sample. -/
theorem normalizeFeatures_minmax_unit_c10 (features : List (List ℚ))
    (hne : features ≠ [])
    (hlen : ∀ s ∈ features, s.length = featureCount features) :
    ∃ r, normalizeFeatures features = some r ∧
      (∀ i, i < featureCount features →
        ∃ mn mx, r.min.get? i = some (some mn) ∧ r.max.get? i = some (some mx) ∧
          (∀ s ∈ features, mn ≤ s.getD i 0 ∧ s.getD i 0 ≤ mx) ∧
          (∃ s ∈ features, s.getD i 0 = mn) ∧ (∃ s ∈ features, s.getD i 0 = mx) ∧
          (mx = mn → ∀ row ∈ r.normalized, row.getD i 0 = 0)) ∧
      (∀ row ∈ r.normalized, ∀ v ∈ row, 0 ≤ v ∧ v ≤ 1) := by
  have hlen0 : ¬features.length = 0 := fun h => hne (List.length_eq_zero.mp h)
  have harr : ∀ i, i < featureCount features →
      ((List.range (featureCount features)).map fun j =>
        colMinOpt features j).getD i none = colMinOpt features i ∧
      ((List.range (featureCount features)).map fun j =>
        colMaxOpt features j).getD i none = colMaxOpt features i := by
    intro i hi
    constructor <;>
      · rw [List.getD_eq_get?, List.get?_map, List.get?_range hi]
        rfl
  unfold normalizeFeatures
  rw [if_neg hlen0]
  dsimp only
  refine ⟨_, rfl, ?_, ?_⟩
  · intro i hi
    obtain ⟨mn, mx, hmn, hmx, hbounds, hattmn, hattmx⟩ :=
      colMinMax_spec features hne hlen i hi
    refine ⟨mn, mx, ?_, ?_, hbounds, hattmn, hattmx, ?_⟩
    · rw [List.get?_map, List.get?_range hi]
      simp only [Option.map_some']
      rw [hmn]
    · rw [List.get?_map, List.get?_range hi]
      simp only [Option.map_some']
      rw [hmx]
    · intro hzero row hrow
      rw [List.mem_map] at hrow
      obtain ⟨s, hs, rfl⟩ := hrow
      have hlt : i < s.length := by rw [hlen s hs]; exact hi
      rw [List.getD_eq_get?, List.get?_map, List.enum_get?, List.get?_eq_get hlt]
      dsimp only [Option.map_some', Option.getD_some]
      rw [(harr i hi).1, (harr i hi).2, hmn, hmx]
      dsimp only
      rw [hzero, sub_self, if_pos rfl]
  · intro row hrow v hv
    rw [List.mem_map] at hrow
    obtain ⟨s, hs, rfl⟩ := hrow
    rw [List.mem_map] at hv
    obtain ⟨iv, hiv, rfl⟩ := hv
    have hivget : s.get? iv.1 = some iv.2 := List.mem_enum_iff_get?.mp hiv
    obtain ⟨hlt, hgeteq⟩ := List.get?_eq_some.mp hivget
    have hilt : iv.1 < featureCount features := by
      rw [← hlen s hs]
      exact hlt
    obtain ⟨mn, mx, hmn, hmx, hbounds, _, _⟩ := colMinMax_spec features hne hlen iv.1 hilt
    have hgd : s.getD iv.1 0 = iv.2 := by
      rw [List.getD_eq_get?, hivget]
      rfl
    obtain ⟨h1, h2⟩ := hbounds s hs
    rw [hgd] at h1 h2
    rw [(harr iv.1 hilt).1, (harr iv.1 hilt).2, hmn, hmx]
    dsimp only
    by_cases hz : mx - mn = 0
    · rw [if_pos hz]
      exact ⟨le_refl 0, by norm_num⟩
    · rw [if_neg hz]
      have hpos : 0 < mx - mn :=
        lt_of_le_of_ne (sub_nonneg.mpr (le_trans h1 h2)) (Ne.symm hz)
      constructor
      · exact div_nonneg (sub_nonneg.mpr h1) (le_of_lt hpos)
      · rw [div_le_one hpos]
        exact sub_le_sub_right h2 mn

/-- Witness for C10 on the concrete two-sample, two-feature corpus. -/
theorem normalizeFeatures_minmax_unit_c10_witness :
    ∃ r, normalizeFeatures corpusTwo = some r ∧
      (∀ i, i < featureCount corpusTwo →
        ∃ mn mx, r.min.get? i = some (some mn) ∧ r.max.get? i = some (some mx) ∧
          (∀ s ∈ corpusTwo, mn ≤ s.getD i 0 ∧ s.getD i 0 ≤ mx) ∧
          (∃ s ∈ corpusTwo, s.getD i 0 = mn) ∧ (∃ s ∈ corpusTwo, s.getD i 0 = mx) ∧
          (mx = mn → ∀ row ∈ r.normalized, row.getD i 0 = 0)) ∧
      (∀ row ∈ r.normalized, ∀ v ∈ row, 0 ≤ v ∧ v ≤ 1) :=
  normalizeFeatures_minmax_unit_c10 corpusTwo (by decide) (by decide)

end GhostKey
